import Mathlib

/-!
Verification of the DevLake collector and extractor subtasks.

Shallow embedding of:
- the Tapd worklog collector query builder
  (plugins/tapd/tasks/worklog_collector.go, CollectWorklogs),
- the GitHub GraphQL pull-request collector
  (plugins/github_graphql/tasks/pr_collector.go, CollectPr: its BuildQuery
  and ResponseParser closures and the record converters),
- the Opsgenie team extractor (ExtractTeams and its Extract closure).

Timestamps are modelled as natural numbers (Go time.Time.Before is the
strict order on them).  Record converters that always return a nil error in
the source are modelled as total functions.  Engine pieces that live in the
shared helper packages (not part of the analysed files) are modelled from
the specification and carry a doc comment saying so.
-/

namespace DevLake

/-- Concatenation of the lists produced by f over a list, in order.  Models
the repeated `results = append(results, ...)` pattern of the Go loops. -/
def listJoinMap {α β : Type} (f : α → List β) : List α → List β
  | [] => []
  | a :: l => f a ++ listJoinMap f l

theorem listJoinMap_append {α β : Type} (f : α → List β) (l₁ l₂ : List α) :
    listJoinMap f (l₁ ++ l₂) = listJoinMap f l₁ ++ listJoinMap f l₂ := by
  induction l₁ with
  | nil => simp [listJoinMap]
  | cons a l ih => simp [listJoinMap, ih]

/-! ### Go url.Values and the Tapd worklog query builder -/

/-- Go url.Values: a map from a key to the list of its values. -/
def Values : Type := String → List String

/-- The empty url.Values map. -/
def Values.empty : Values := fun _ => []

/-- Go url.Values.Set: replaces any existing values of the key with the
single given value. -/
def Values.set (m : Values) (k v : String) : Values :=
  fun q => if q = k then [v] else m q

/-- Go t.Format of a date (the source formats in the CST zone with layout
2006-01-02; dates are modelled as abstract day numbers). -/
def formatDate (d : Nat) : String := toString d

/-- The Query closure of CollectWorklogs
(plugins/tapd/tasks/worklog_collector.go).  It sets workspace_id, page,
limit, order, then a `created` filter from CreatedDateAfter when that is
present, then a `created` filter from LatestState.LatestSuccessStart when
the run is incremental.  url.Values.Set replaces, so the later Set wins. -/
def worklogQuery (workspaceId page limit : Nat) (createdDateAfter : Option Nat)
    (incremental : Bool) (latestSuccessStart : Nat) : Values :=
  let q := Values.empty
  let q := q.set "workspace_id" (toString workspaceId)
  let q := q.set "page" (toString page)
  let q := q.set "limit" (toString limit)
  let q := q.set "order" "created asc"
  let q := match createdDateAfter with
    | some d => q.set "created" (">" ++ formatDate d)
    | none => q
  let q := if incremental then
      q.set "created" (">" ++ formatDate latestSuccessStart)
    else q
  q

/-! ### The Opsgenie team extractor (ExtractTeams) -/

/-- raw.Team as decoded by json.Unmarshal: the three fields are pointers,
absent fields decode to nil. -/
structure RawTeam where
  id : Option String
  name : Option String
  description : Option String
deriving DecidableEq

/-- models.Team as built by the Extract closure. -/
structure TeamRec where
  connectionId : Nat
  id : String
  name : String
  description : String
deriving DecidableEq

/-- One staged raw row handed to the Extract closure: either its payload
fails json.Unmarshal, or it decodes to a raw.Team. -/
inductive RowPayload where
  | malformed
  | parsed (t : RawTeam)
deriving DecidableEq

/-- Outcome of running the Extract closure on one row: a result list, a
returned non-nil error, or a runtime crash (nil pointer dereference). -/
inductive ExtractOutcome where
  | ok (entries : List TeamRec)
  | err
  | crash
deriving DecidableEq

/-- The Extract closure of ExtractTeams: unmarshal the payload into a
raw.Team (returning the error when that fails), then build a models.Team by
dereferencing the three pointer fields.  Dereferencing a nil pointer is a
crash, not a returned error. -/
def teamExtract (connectionId : Nat) : RowPayload → ExtractOutcome
  | .malformed => .err
  | .parsed t =>
    match t.id, t.name, t.description with
    | some i, some n, some d =>
      .ok [{ connectionId := connectionId, id := i, name := n, description := d }]
    | _, _, _ => .crash

/-- Modelled from the spec: the Extractor Engine (api.NewApiExtractor and
Execute are in the shared helper package, not among the analysed files).
Section 4.6: stream every raw row, apply the transform to each, accumulate
the fan-out; on any transform error abort the run. -/
def runTeamTransforms (c : Nat) : List RowPayload → Option (List TeamRec)
  | [] => some []
  | r :: rest =>
    match teamExtract c r with
    | .ok es =>
      match runTeamTransforms c rest with
      | some acc => some (es ++ acc)
      | none => none
    | _ => none

/-- Modelled from the spec: the Extractor Engine run for one identity.
Section 4.6: on success replace all previously persisted typed output with
the newly produced set; on any transform error abort, leaving the prior
typed output unchanged.  Returns the typed output after the run and whether
the run succeeded. -/
def extractorExecute (prior : List TeamRec) (c : Nat) (rows : List RowPayload) :
    List TeamRec × Bool :=
  match runTeamTransforms c rows with
  | some es => (es, true)
  | none => (prior, false)

/-! ### Incremental state commit (CollectWorklogs run) -/

/-- CollectorState kept by the state tracker for one collection identity. -/
structure WorklogCollectorState where
  latestSuccessStart : Option Nat
deriving DecidableEq

/-- Outcome of one attempted page fetch. -/
inductive PageOutcome where
  | success
  | failure
deriving DecidableEq

/-- Modelled from the spec: collectorWithState.Execute
(helper.NewApiCollectorWithState is in the shared helper package, not among
the analysed files).  Section 3 CollectorState and section 4.4 step 5: the
stored timestamp advances to the run start time only after every attempted
page succeeded; on any failure the stored state is unchanged.  Returns the
stored state after the run and whether the run succeeded. -/
def runCollectorWithState (st : WorklogCollectorState) (runStart : Nat)
    (pages : List PageOutcome) : WorklogCollectorState × Bool :=
  if pages.all (fun p => match p with | .success => true | .failure => false) then
    ({ latestSuccessStart := some runStart }, true)
  else
    (st, false)

/-! ### Go strings.Split and the BuildQuery closure of CollectPr -/

/-- Go strings.Split with a one-character separator, on strings modelled as
character lists.  Split never returns an empty slice: splitting a string
with no separator yields the one-element slice holding the whole string. -/
def goSplit (sep : Char) : List Char → List (List Char)
  | [] => [[]]
  | a :: rest =>
    match goSplit sep rest with
    | [] => [[a]]
    | h :: t => if a = sep then [] :: h :: t else (a :: h) :: t

/-- Outcome of the BuildQuery closure: the owner and name variables, or a
runtime crash (slice index out of range). -/
inductive BuildQueryOutcome where
  | crash
  | ok (owner name : List Char)
deriving DecidableEq

/-- The BuildQuery closure of CollectPr
(plugins/github_graphql/tasks/pr_collector.go): ownerName :=
strings.Split(data.Options.Name, "/"), then the variables use ownerName[0]
and ownerName[1].  Indexing position 1 of a shorter slice is a crash. -/
def buildQueryVars (optionsName : List Char) : BuildQueryOutcome :=
  match goSplit '/' optionsName with
  | o :: n :: _ => .ok o n
  | _ => .crash

/-! ### GitHub GraphQL pull-request response data (CollectPr) -/

/-- GraphqlInlineAccountQuery, with the fields the parser reads (Id, Login). -/
structure Account where
  id : Int
  login : String
deriving DecidableEq

/-- One node of the labels connection of a pull request. -/
structure LabelNode where
  id : String
  name : String
deriving DecidableEq

/-- GraphqlQueryReview. -/
structure ReviewNode where
  body : String
  author : Option Account
  state : String
  databaseId : Int
  commitOid : String
  submittedAt : Option Nat
deriving DecidableEq

/-- GraphqlQueryCommit. -/
structure CommitNode where
  oid : String
  message : String
  authorName : String
  authorEmail : String
  authorDate : Nat
  authorUser : Option Account
  committerDate : Nat
  committerEmail : String
  committerName : String
  url : String
deriving DecidableEq

/-- GraphqlQueryPr. -/
structure PrNode where
  databaseId : Int
  number : Int
  state : String
  title : String
  body : String
  url : String
  labels : List LabelNode
  author : Option Account
  assignees : List Account
  closedAt : Option Nat
  mergedAt : Option Nat
  updatedAt : Nat
  createdAt : Nat
  mergeCommitOid : Option String
  headRefName : String
  headRefOid : String
  baseRefName : String
  baseRefOid : String
  commits : List CommitNode
  reviews : List ReviewNode
deriving DecidableEq

/-- models.GithubPullRequest, with the fields convertGithubPullRequest and
the label-regex processing set (prType models the Go field Type; fields the
source never sets keep the Go zero value and are omitted). -/
structure GithubPullRequest where
  connectionId : Nat
  githubId : Int
  repoId : Int
  number : Int
  state : String
  title : String
  url : String
  githubCreatedAt : Nat
  githubUpdatedAt : Nat
  closedAt : Option Nat
  mergedAt : Option Nat
  body : String
  baseRef : String
  baseCommitSha : String
  headRef : String
  headCommitSha : String
  mergeCommitSha : String
  authorName : String
  authorId : Int
  prType : String
  component : String
deriving DecidableEq

/-- Modelled from the spec: the account record produced by
convertGraphqlPreAccount, a per-source field mapping that is out of scope
in the spec and not among the analysed files; modelled as a total
conversion producing one account record. -/
structure GithubAccount where
  connectionId : Nat
  githubId : Int
  login : String
deriving DecidableEq

/-- models.GithubPrLabel as built by the parser. -/
structure GithubPrLabel where
  connectionId : Nat
  pullId : Int
  labelName : String
deriving DecidableEq

/-- models.GithubReviewer as built by the parser. -/
structure GithubReviewer where
  connectionId : Nat
  pullRequestId : Int
  githubId : Int
  login : String
deriving DecidableEq

/-- models.GithubPrReview as built by the parser. -/
structure GithubPrReview where
  connectionId : Nat
  githubId : Int
  body : String
  state : String
  commitSha : String
  githubSubmitAt : Option Nat
  authorUserId : Int
  authorUsername : String
  pullRequestId : Int
deriving DecidableEq

/-- models.GithubCommit as built by convertPullRequestCommit. -/
structure GithubCommit where
  sha : String
  message : String
  authorName : String
  authorEmail : String
  authoredDate : Nat
  committerName : String
  committerEmail : String
  committedDate : Nat
  url : String
  authorId : Int
deriving DecidableEq

/-- models.GithubPrCommit as built by the parser. -/
structure GithubPrCommit where
  connectionId : Nat
  commitSha : String
  pullRequestId : Int
deriving DecidableEq

/-- One element of the []interface{} result slice built by the
ResponseParser closure. -/
inductive Entry where
  | account : GithubAccount → Entry
  | prLabel : GithubPrLabel → Entry
  | pullRequest : GithubPullRequest → Entry
  | reviewer : GithubReviewer → Entry
  | prReview : GithubPrReview → Entry
  | commit : GithubCommit → Entry
  | prCommit : GithubPrCommit → Entry
deriving DecidableEq

/-- The task data the ResponseParser closure captures: connection id, repo
id (data.Options.GithubId), the optional CreatedDateAfter cutoff, and the
two optional compiled label regexes.  A regex is modelled as an oracle
returning its first capture group on a match. -/
structure ParserCtx where
  connectionId : Nat
  githubId : Int
  createdDateAfter : Option Nat
  labelTypeRegex : Option (String → Option String)
  labelComponentRegex : Option (String → Option String)

/-- convertGithubPullRequest (pr_collector.go): builds the pull-request
record; MergeCommitSha and the author fields are set only when the
corresponding pointers are non-nil, otherwise they keep the Go zero value. -/
def convertGithubPullRequest (pull : PrNode) (connId : Nat) (repoId : Int) :
    GithubPullRequest :=
  { connectionId := connId
    githubId := pull.databaseId
    repoId := repoId
    number := pull.number
    state := pull.state
    title := pull.title
    url := pull.url
    githubCreatedAt := pull.createdAt
    githubUpdatedAt := pull.updatedAt
    closedAt := pull.closedAt
    mergedAt := pull.mergedAt
    body := pull.body
    baseRef := pull.baseRefName
    baseCommitSha := pull.baseRefOid
    headRef := pull.headRefName
    headCommitSha := pull.headRefOid
    mergeCommitSha := match pull.mergeCommitOid with
      | some oid => oid
      | none => ""
    authorName := match pull.author with
      | some a => a.login
      | none => ""
    authorId := match pull.author with
      | some a => a.id
      | none => 0
    prType := ""
    component := "" }

/-- convertPullRequestCommit (pr_collector.go). -/
def convertPullRequestCommit (prCommit : CommitNode) : GithubCommit :=
  { sha := prCommit.oid
    message := prCommit.message
    authorName := prCommit.authorName
    authorEmail := prCommit.authorEmail
    authoredDate := prCommit.authorDate
    committerName := prCommit.committerName
    committerEmail := prCommit.committerEmail
    committedDate := prCommit.committerDate
    url := prCommit.url
    authorId := match prCommit.authorUser with
      | some a => a.id
      | none => 0 }

/-- Modelled from the spec: convertGraphqlPreAccount (a per-source field
mapping, out of scope in the spec and not among the analysed files),
modelled as a total conversion producing one account record; in the
analysed parser its error return is always nil. -/
def convertGraphqlPreAccount (a : Account) (connId : Nat) : GithubAccount :=
  { connectionId := connId, githubId := a.id, login := a.login }

/-- The label-regex processing of the parser loop: on a match of the type
regex the Type field is overwritten with the first capture group, likewise
for the component regex. -/
def applyLabelRegexes (ctx : ParserCtx) (pr : GithubPullRequest)
    (l : LabelNode) : GithubPullRequest :=
  let pr1 := match ctx.labelTypeRegex with
    | some f =>
      match f l.name with
      | some g => { pr with prType := g }
      | none => pr
    | none => pr
  match ctx.labelComponentRegex with
  | some f =>
    match f l.name with
    | some g => { pr1 with component := g }
    | none => pr1
  | none => pr1

/-- The GithubReviewer record built for one review: the author fields are
set only when the review has an author, otherwise they keep the Go zero
value. -/
def mkGithubReviewer (ctx : ParserCtx) (prId : Int) (r : ReviewNode) :
    GithubReviewer :=
  { connectionId := ctx.connectionId
    pullRequestId := prId
    githubId := match r.author with
      | some a => a.id
      | none => 0
    login := match r.author with
      | some a => a.login
      | none => "" }

/-- The GithubPrReview record built for one review: the author fields are
set only when the review has an author. -/
def mkGithubPrReview (ctx : ParserCtx) (prId : Int) (r : ReviewNode) :
    GithubPrReview :=
  { connectionId := ctx.connectionId
    githubId := r.databaseId
    body := r.body
    state := r.state
    commitSha := r.commitOid
    githubSubmitAt := r.submittedAt
    authorUserId := match r.author with
      | some a => a.id
      | none => 0
    authorUsername := match r.author with
      | some a => a.login
      | none => ""
    pullRequestId := prId }

/-- The entries the reviews loop of the parser appends for one review: a
review whose State is PENDING appends nothing; otherwise the account record
of the author (when present), then the reviewer record, then the review
record, in that order. -/
def reviewUnits (ctx : ParserCtx) (prId : Int) (r : ReviewNode) : List Entry :=
  if r.state = "PENDING" then []
  else
    (match r.author with
     | some a => [Entry.account (convertGraphqlPreAccount a ctx.connectionId)]
     | none => [])
    ++ [Entry.reviewer (mkGithubReviewer ctx prId r),
        Entry.prReview (mkGithubPrReview ctx prId r)]

/-- The entries the commits loop of the parser appends for one pull-request
commit: the commit record, the pr-commit record, then the account record of
the commit author when present, in that order. -/
def commitUnits (ctx : ParserCtx) (prId : Int) (c : CommitNode) : List Entry :=
  [Entry.commit (convertPullRequestCommit c),
   Entry.prCommit { connectionId := ctx.connectionId, commitSha := c.oid,
                    pullRequestId := prId }]
  ++ (match c.authorUser with
      | some a => [Entry.account (convertGraphqlPreAccount a ctx.connectionId)]
      | none => [])

/-- The entries the parser appends for one pull request that did not
trigger early finish: the account record of the author (when present), one
label record per label, the pull-request record (with Type and Component as
left by the label loop), the review entries, then the commit entries. -/
def prUnits (ctx : ParserCtx) (pr : PrNode) : List Entry :=
  let basePr := convertGithubPullRequest pr ctx.connectionId ctx.githubId
  let finalPr := pr.labels.foldl (applyLabelRegexes ctx) basePr
  (match pr.author with
   | some a => [Entry.account (convertGraphqlPreAccount a ctx.connectionId)]
   | none => [])
  ++ pr.labels.map (fun l => Entry.prLabel
       { connectionId := ctx.connectionId, pullId := basePr.githubId,
         labelName := l.name })
  ++ [Entry.pullRequest finalPr]
  ++ listJoinMap (reviewUnits ctx basePr.githubId) pr.reviews
  ++ listJoinMap (commitUnits ctx basePr.githubId) pr.commits

/-- The early-finish test of the parser loop: the loop keeps processing a
record exactly when CreatedDateAfter is nil or CreatedDateAfter.Before
(CreatedAt); otherwise it sets isFinish and breaks before staging it. -/
def keepRecord (ctx : ParserCtx) (pr : PrNode) : Bool :=
  match ctx.createdDateAfter with
  | none => true
  | some c => decide (c < pr.createdAt)

/-- The error slot of the parser result: nil, the helper.ErrFinishCollect
sentinel, or a real error.  In the analysed parser every converter returns
a nil error, so the real-error branch is never taken by parsePage. -/
inductive Signal where
  | ok
  | finishCollect
  | fail
deriving DecidableEq

/-- The parser loop of the ResponseParser closure: process records in page
order, appending the units of each kept record; on the first record past
the cutoff set the finish flag and break. -/
def parsePageAux (ctx : ParserCtx) : List PrNode → List Entry × Bool
  | [] => ([], false)
  | pr :: rest =>
    if keepRecord ctx pr then
      let r := parsePageAux ctx rest
      (prUnits ctx pr ++ r.1, r.2)
    else ([], true)

/-- The ResponseParser closure of CollectPr: the result slice of the loop,
paired with ErrFinishCollect when the finish flag was set and a nil error
otherwise. -/
def parsePage (ctx : ParserCtx) (prs : List PrNode) : List Entry × Signal :=
  let r := parsePageAux ctx prs
  (r.1, if r.2 then Signal.finishCollect else Signal.ok)

/-- Result of a collection run: the staged units, how many pages were
fetched, and whether the run failed. -/
structure RunResult where
  staged : List Entry
  pagesFetched : Nat
  failed : Bool
deriving DecidableEq

/-- Modelled from the spec: the GraphQL collector engine
(helper.NewGraphqlCollector and Execute are in the shared helper package,
not among the analysed files).  Sections 4.4 and 4.5: pages are fetched in
order and handed to the parser; all successfully parsed units are staged;
once a page's parser signals early finish the engine stops scheduling new
pages and the run is a success; a parser failure aborts the run. -/
def collectRunPages (ctx : ParserCtx) : List (List PrNode) → RunResult
  | [] => { staged := [], pagesFetched := 0, failed := false }
  | page :: rest =>
    match parsePage ctx page with
    | (us, .finishCollect) => { staged := us, pagesFetched := 1, failed := false }
    | (us, .ok) =>
      let r := collectRunPages ctx rest
      { staged := us ++ r.staged, pagesFetched := r.pagesFetched + 1,
        failed := r.failed }
    | (_, .fail) => { staged := [], pagesFetched := 1, failed := true }

/-- The creation times of the pull-request records among a list of staged
units. -/
def stagedCreatedTimes (es : List Entry) : List Nat :=
  es.filterMap fun e =>
    match e with
    | .pullRequest p => some p.githubCreatedAt
    | _ => none

/-- A pull-request node with the given creation time and no author, labels,
reviews or commits, for the concrete scenario of the spec. -/
def mkPr (t : Nat) : PrNode :=
  { databaseId := Int.ofNat t, number := 0, state := "OPEN", title := "",
    body := "", url := "", labels := [], author := none, assignees := [],
    closedAt := none, mergedAt := none, updatedAt := t, createdAt := t,
    mergeCommitOid := none, headRefName := "", headRefOid := "",
    baseRefName := "", baseRefOid := "", commits := [], reviews := [] }

/-- The parser context of the concrete scenario: cutoff 3, no label
regexes. -/
def scenarioCtx : ParserCtx :=
  { connectionId := 1, githubId := 1, createdDateAfter := some 3,
    labelTypeRegex := none, labelComponentRegex := none }

/-- The pages of the concrete scenario: five records with creation times
5,4,3,2,1 newest first, page size 2. -/
def scenarioPages : List (List PrNode) :=
  [[mkPr 5, mkPr 4], [mkPr 3, mkPr 2], [mkPr 1]]

/-! ## Theorems -/

/-- C1 counterexample: with an explicit cutoff of day 10 and a recorded
latestSuccessStart of day 5, the filter the query carries is the
latestSuccessStart bound, not the maximum of the two. -/
theorem worklog_cutoff_not_max :
    worklogQuery 1 1 100 (some 10) true 5 "created" = [">" ++ formatDate 5]
    ∧ worklogQuery 1 1 100 (some 10) true 5 "created"
        ≠ [">" ++ formatDate (max 10 5)] := by
  exact ⟨by decide, by decide⟩

/-- C1 (amended): the incremental filter of the worklog collection request
is the latestSuccessStart bound whenever the run is incremental, because
the second url.Values.Set of the `created` key replaces the bound set from
CreatedDateAfter; only in a non-incremental run is the explicit
CreatedDateAfter bound used, and with neither present no filter is set. -/
theorem worklog_cutoff_overwrites :
    ∀ (w p l : Nat) (cda : Option Nat) (inc : Bool) (lss : Nat),
      worklogQuery w p l cda inc lss "created"
        = (if inc then [">" ++ formatDate lss]
           else match cda with
             | some d => [">" ++ formatDate d]
             | none => []) := by
  intro w p l cda inc lss
  cases cda <;> cases inc <;> rfl

/-- C8: the Extract closure of ExtractTeams returns no error value when a
decoded team is missing Id, Name or Description: it crashes on the nil
pointer dereference, and it produces a result exactly when all three
fields are present. -/
theorem team_extract_nil_field_crashes (c : Nat) (t : RawTeam)
    (h : t.id = none ∨ t.name = none ∨ t.description = none) :
    teamExtract c (.parsed t) = .crash
    ∧ teamExtract c (.parsed t) ≠ .err
    ∧ (∀ t2 : RawTeam,
        (∃ es, teamExtract c (.parsed t2) = .ok es)
          ↔ (t2.id ≠ none ∧ t2.name ≠ none ∧ t2.description ≠ none)) := by
  refine ⟨?_, ?_, ?_⟩
  · rcases t with ⟨i, n, d⟩
    cases i <;> cases n <;> cases d <;> simp_all [teamExtract]
  · rcases t with ⟨i, n, d⟩
    cases i <;> cases n <;> cases d <;> simp_all [teamExtract]
  · intro t2
    rcases t2 with ⟨i, n, d⟩
    cases i <;> cases n <;> cases d <;> simp [teamExtract]

/-- C8 witness: a decoded team with a nil Id crashes the Extract closure. -/
theorem team_extract_nil_field_crashes_witness :
    ((⟨none, some "a", some "b"⟩ : RawTeam).id = none
      ∨ (⟨none, some "a", some "b"⟩ : RawTeam).name = none
      ∨ (⟨none, some "a", some "b"⟩ : RawTeam).description = none)
    ∧ (teamExtract 1 (.parsed ⟨none, some "a", some "b"⟩) = .crash
       ∧ teamExtract 1 (.parsed ⟨none, some "a", some "b"⟩) ≠ .err
       ∧ (∀ t2 : RawTeam,
           (∃ es, teamExtract 1 (.parsed t2) = .ok es)
             ↔ (t2.id ≠ none ∧ t2.name ≠ none ∧ t2.description ≠ none))) :=
  ⟨Or.inl rfl, team_extract_nil_field_crashes 1 _ (Or.inl rfl)⟩

theorem goSplit_ne_nil (sep : Char) (l : List Char) : goSplit sep l ≠ [] := by
  cases l with
  | nil => simp [goSplit]
  | cons a rest =>
    rcases hg : goSplit sep rest with _ | ⟨h, t⟩
    · simp [goSplit, hg]
    · simp only [goSplit, hg]
      split <;> simp

theorem goSplit_no_sep (sep : Char) (l : List Char) (h : sep ∉ l) :
    goSplit sep l = [l] := by
  induction l with
  | nil => rfl
  | cons a rest ih =>
    have ha : ¬a = sep := by
      intro e
      exact h (by simp [e])
    have hr : sep ∉ rest := fun m => h (List.mem_cons_of_mem a m)
    simp [goSplit, ih hr, if_neg ha]

theorem goSplit_two_of_mem (sep : Char) (l : List Char) (h : sep ∈ l) :
    ∃ o n t, goSplit sep l = o :: n :: t := by
  induction l with
  | nil => cases h
  | cons a rest ih =>
    by_cases ha : a = sep
    · rcases hg : goSplit sep rest with _ | ⟨x, t⟩
      · exact absurd hg (goSplit_ne_nil sep rest)
      · exact ⟨[], x, t, by simp [goSplit, hg, ha]⟩
    · have hr : sep ∈ rest := by
        rcases List.mem_cons.mp h with e | m
        · exact absurd e.symm ha
        · exact m
      obtain ⟨o, n, t, ht⟩ := ih hr
      exact ⟨a :: o, n, t, by simp [goSplit, ht, if_neg ha]⟩

/-- C9: the BuildQuery closure of CollectPr crashes (slice index out of
range) on every repository Name holding no slash, and it produces owner
and name variables whenever the Name holds a slash. -/
theorem buildquery_missing_slash_crashes (name : List Char)
    (h : ('/' : Char) ∉ name) :
    buildQueryVars name = .crash
    ∧ (∀ nm : List Char, ('/' : Char) ∈ nm →
         ∃ o n2, buildQueryVars nm = .ok o n2) := by
  constructor
  · simp [buildQueryVars, goSplit_no_sep '/' name h]
  · intro nm hm
    obtain ⟨o, n2, t, ht⟩ := goSplit_two_of_mem '/' nm hm
    exact ⟨o, n2, by simp [buildQueryVars, ht]⟩

/-- C9 witness: the Name abc (no slash) crashes the BuildQuery closure. -/
theorem buildquery_missing_slash_crashes_witness :
    (('/' : Char) ∉ (['a', 'b', 'c'] : List Char))
    ∧ (buildQueryVars ['a', 'b', 'c'] = .crash
       ∧ (∀ nm : List Char, ('/' : Char) ∈ nm →
            ∃ o n2, buildQueryVars nm = .ok o n2)) :=
  ⟨by decide, buildquery_missing_slash_crashes ['a', 'b', 'c'] (by decide)⟩

theorem runTeamTransforms_none (c : Nat) :
    ∀ rows : List RowPayload,
      (∃ r ∈ rows, teamExtract c r = .err) → runTeamTransforms c rows = none := by
  intro rows
  induction rows with
  | nil =>
    intro h
    rcases h with ⟨r, hr, _⟩
    cases hr
  | cons a rest ih =>
    intro h
    rcases h with ⟨r, hr, he⟩
    rcases List.mem_cons.mp hr with e | m
    · subst e
      simp [runTeamTransforms, he]
    · cases hx : teamExtract c a with
      | ok es => simp [runTeamTransforms, hx, ih ⟨r, m, he⟩]
      | err => simp [runTeamTransforms, hx]
      | crash => simp [runTeamTransforms, hx]

/-- C4: when the transform returns an error on any raw row, the extraction
run aborts: the typed output for the identity stays precisely the prior
one and the run reports failure. -/
theorem extract_all_or_nothing (prior : List TeamRec) (c : Nat)
    (rows : List RowPayload) (h : ∃ r ∈ rows, teamExtract c r = .err) :
    extractorExecute prior c rows = (prior, false) := by
  simp [extractorExecute, runTeamTransforms_none c rows h]

/-- C4 witness: a row whose payload fails to decode leaves the seeded prior
typed output unchanged. -/
theorem extract_all_or_nothing_witness :
    (∃ r ∈ [RowPayload.parsed ⟨some "a", some "b", some "c"⟩,
            RowPayload.malformed], teamExtract 1 r = .err)
    ∧ extractorExecute [⟨7, "i", "n", "d"⟩] 1
        [RowPayload.parsed ⟨some "a", some "b", some "c"⟩,
         RowPayload.malformed]
        = ([⟨7, "i", "n", "d"⟩], false) :=
  ⟨⟨RowPayload.malformed, by simp, rfl⟩,
   extract_all_or_nothing [⟨7, "i", "n", "d"⟩] 1 _
     ⟨RowPayload.malformed, by simp, rfl⟩⟩

/-- C5: the stored incremental state advances to the run start time exactly
when every attempted page succeeded; on any page failure the stored state
is returned unchanged. -/
theorem state_commit_only_on_success (st : WorklogCollectorState)
    (runStart : Nat) (pages : List PageOutcome) :
    ((∃ p ∈ pages, p = PageOutcome.failure) →
       runCollectorWithState st runStart pages = (st, false))
    ∧ ((∀ p ∈ pages, p = PageOutcome.success) →
       runCollectorWithState st runStart pages
         = ({ latestSuccessStart := some runStart }, true)) := by
  constructor
  · rintro ⟨p, hp, hf⟩
    have hall : pages.all
        (fun p => match p with | .success => true | .failure => false) = false := by
      cases hq : pages.all
          (fun p => match p with | .success => true | .failure => false)
      · rfl
      · have := List.all_eq_true.mp hq p hp
        subst hf
        simp at this
    simp [runCollectorWithState, hall]
  · intro hall
    have : pages.all
        (fun p => match p with | .success => true | .failure => false) = true := by
      apply List.all_eq_true.mpr
      intro p hp
      rw [hall p hp]
    simp [runCollectorWithState, this]

theorem parsePageAux_eq (ctx : ParserCtx) (prs : List PrNode) :
    parsePageAux ctx prs
      = (listJoinMap (prUnits ctx) (prs.takeWhile (keepRecord ctx)),
         !prs.all (keepRecord ctx)) := by
  induction prs with
  | nil => simp [parsePageAux, listJoinMap]
  | cons pr rest ih =>
    cases h : keepRecord ctx pr
    · simp [parsePageAux, h, List.takeWhile_cons, List.all_cons, listJoinMap]
    · simp [parsePageAux, h, ih, List.takeWhile_cons, List.all_cons, listJoinMap]

theorem takeWhile_of_all {α : Type} (p : α → Bool) :
    ∀ l : List α, l.all p = true → l.takeWhile p = l := by
  intro l
  induction l with
  | nil => intro _; rfl
  | cons a t ih =>
    intro h
    rw [List.all_cons, Bool.and_eq_true] at h
    simp [List.takeWhile_cons, h.1, ih h.2]

/-- C2 counterexample: in the concrete scenario (creation times 5,4,3,2,1
newest first, page size 2, cutoff 3) the staged pull requests are not those
with times 5,4,3: the record whose creation time equals the cutoff is never
staged. -/
theorem collect_cutoff_boundary_cex :
    stagedCreatedTimes (collectRunPages scenarioCtx scenarioPages).staged
        ≠ [5, 4, 3]
    ∧ 3 ∉ stagedCreatedTimes (collectRunPages scenarioCtx scenarioPages).staged := by
  exact ⟨by decide, by decide⟩

/-- C2 (amended): the incremental boundary is exclusive: a page's staged
units are exactly those of the longest prefix of records created strictly
after the cutoff, and early finish fires exactly when some record of the
page was created at or before the cutoff; in the concrete scenario
(times 5,4,3,2,1, page size 2, cutoff 3) the staged records are those with
times 5 and 4, early finish fires on the page holding times 3 and 2, and no
page beyond it is fetched. -/
theorem collect_cutoff_boundary :
    (∀ (cid : Nat) (gid : Int) (rt rc : Option (String → Option String))
       (cutoff : Nat) (prs : List PrNode),
       (parsePage ⟨cid, gid, some cutoff, rt, rc⟩ prs).1
         = listJoinMap (prUnits ⟨cid, gid, some cutoff, rt, rc⟩)
             (prs.takeWhile (fun pr => decide (cutoff < pr.createdAt)))
       ∧ ((parsePage ⟨cid, gid, some cutoff, rt, rc⟩ prs).2
             = Signal.finishCollect
           ↔ ∃ pr ∈ prs, pr.createdAt ≤ cutoff))
    ∧ stagedCreatedTimes (collectRunPages scenarioCtx scenarioPages).staged
        = [5, 4]
    ∧ (collectRunPages scenarioCtx scenarioPages).pagesFetched = 2
    ∧ (collectRunPages scenarioCtx scenarioPages).failed = false := by
  refine ⟨?_, by decide, by decide, by decide⟩
  intro cid gid rt rc cutoff prs
  have hk : keepRecord ⟨cid, gid, some cutoff, rt, rc⟩
      = fun pr => decide (cutoff < pr.createdAt) := rfl
  constructor
  · simp [parsePage, parsePageAux_eq, hk]
  · rcases h : prs.all (fun pr => decide (cutoff < pr.createdAt)) with _ | _
    · simp only [parsePage, parsePageAux_eq, hk, h]
      have : ∃ pr ∈ prs, pr.createdAt ≤ cutoff := by
        by_contra hc
        push_neg at hc
        have : prs.all (fun pr => decide (cutoff < pr.createdAt)) = true :=
          List.all_eq_true.mpr fun pr hp => by
            simpa using hc pr hp
        simp [this] at h
      simp [this]
    · simp only [parsePage, parsePageAux_eq, hk, h]
      have : ¬∃ pr ∈ prs, pr.createdAt ≤ cutoff := by
        rintro ⟨pr, hp, hle⟩
        have := List.all_eq_true.mp h pr hp
        simp at this
        omega
      simp [this]

/-- C3: when the parser detects a record past the cutoff partway through a
page, it still returns every unit of the records preceding the trigger,
signals the distinguished ErrFinishCollect value rather than a fetch
failure, and the engine run stops scheduling further pages and does not
fail. -/
theorem parser_early_finish (ctx : ParserCtx) (prs : List PrNode)
    (rest : List (List PrNode)) (h : prs.all (keepRecord ctx) = false) :
    (parsePage ctx prs).1
        = listJoinMap (prUnits ctx) (prs.takeWhile (keepRecord ctx))
    ∧ (parsePage ctx prs).2 = Signal.finishCollect
    ∧ (parsePage ctx prs).2 ≠ Signal.fail
    ∧ collectRunPages ctx (prs :: rest)
        = { staged := (parsePage ctx prs).1, pagesFetched := 1,
            failed := false } := by
  have h1 : parsePage ctx prs
      = (listJoinMap (prUnits ctx) (prs.takeWhile (keepRecord ctx)),
         Signal.finishCollect) := by
    simp [parsePage, parsePageAux_eq, h]
  refine ⟨by rw [h1], by rw [h1], by rw [h1]; simp, ?_⟩
  simp [collectRunPages, h1]

/-- C3 witness: a page whose second record is past the cutoff stages the
units of the first record, signals early finish, and the run succeeds with
exactly one page fetched. -/
theorem parser_early_finish_witness :
    ([mkPr 5, mkPr 2].all (keepRecord scenarioCtx) = false)
    ∧ ((parsePage scenarioCtx [mkPr 5, mkPr 2]).1
          = listJoinMap (prUnits scenarioCtx)
              ([mkPr 5, mkPr 2].takeWhile (keepRecord scenarioCtx))
       ∧ (parsePage scenarioCtx [mkPr 5, mkPr 2]).2 = Signal.finishCollect
       ∧ (parsePage scenarioCtx [mkPr 5, mkPr 2]).2 ≠ Signal.fail
       ∧ collectRunPages scenarioCtx ([mkPr 5, mkPr 2] :: [[mkPr 1]])
           = { staged := (parsePage scenarioCtx [mkPr 5, mkPr 2]).1,
               pagesFetched := 1, failed := false }) :=
  ⟨by decide,
   parser_early_finish scenarioCtx [mkPr 5, mkPr 2] [[mkPr 1]] (by decide)⟩

theorem parseAux_split1 (ctx : ParserCtx) :
    ∀ (l : List PrNode) (k : Nat) (hk : k < l.length),
      (∀ m (hm : m ≤ k),
        keepRecord ctx (l.get ⟨m, Nat.lt_of_le_of_lt hm hk⟩) = true) →
      ∃ pre post,
        (parsePageAux ctx l).1 = pre ++ prUnits ctx (l.get ⟨k, hk⟩) ++ post := by
  intro l
  induction l with
  | nil =>
    intro k hk
    exact absurd hk (Nat.not_lt_zero k)
  | cons a t ih =>
    intro k hk hkeep
    have ha : keepRecord ctx a = true := by
      have := hkeep 0 (Nat.zero_le k)
      simpa using this
    cases k with
    | zero => exact ⟨[], (parsePageAux ctx t).1, by simp [parsePageAux, ha]⟩
    | succ k2 =>
      have hk2 : k2 < t.length := Nat.lt_of_succ_lt_succ hk
      obtain ⟨pre, post, hp⟩ := ih k2 hk2 (fun m hm => by
        have := hkeep (m + 1) (Nat.succ_le_succ hm)
        simpa using this)
      exact ⟨prUnits ctx a ++ pre, post,
        by simp [parsePageAux, ha, hp, List.append_assoc]⟩

theorem parseAux_split2 (ctx : ParserCtx) :
    ∀ (l : List PrNode) (i j : Nat) (hij : i < j) (hj : j < l.length),
      (∀ m (hm : m ≤ j),
        keepRecord ctx (l.get ⟨m, Nat.lt_of_le_of_lt hm hj⟩) = true) →
      ∃ pre mid post,
        (parsePageAux ctx l).1
          = pre ++ prUnits ctx (l.get ⟨i, Nat.lt_trans hij hj⟩) ++ mid
            ++ prUnits ctx (l.get ⟨j, hj⟩) ++ post := by
  intro l
  induction l with
  | nil =>
    intro i j hij hj
    exact absurd hj (Nat.not_lt_zero j)
  | cons a t ih =>
    intro i j hij hj hkeep
    have ha : keepRecord ctx a = true := by
      have := hkeep 0 (Nat.zero_le j)
      simpa using this
    cases i with
    | zero =>
      cases j with
      | zero => exact absurd hij (Nat.lt_irrefl 0)
      | succ j2 =>
        have hj2 : j2 < t.length := Nat.lt_of_succ_lt_succ hj
        obtain ⟨pre, post, hp⟩ := parseAux_split1 ctx t j2 hj2 (fun m hm => by
          have := hkeep (m + 1) (Nat.succ_le_succ hm)
          simpa using this)
        exact ⟨[], pre, post, by simp [parsePageAux, ha, hp, List.append_assoc]⟩
    | succ i2 =>
      cases j with
      | zero => exact absurd hij (Nat.not_lt_zero _)
      | succ j2 =>
        have hj2 : j2 < t.length := Nat.lt_of_succ_lt_succ hj
        obtain ⟨pre, mid, post, hp⟩ :=
          ih i2 j2 (Nat.lt_of_succ_lt_succ hij) hj2 (fun m hm => by
            have := hkeep (m + 1) (Nat.succ_le_succ hm)
            simpa using this)
        exact ⟨prUnits ctx a ++ pre, mid, post,
          by simp [parsePageAux, ha, hp, List.append_assoc]⟩

/-- C6: within a single page, the parser output keeps the page order: for
records at positions i before j that the loop both processes (neither is at
or past an early-finish trigger, the only case in which record j produces
units at all), the block of units of record i stands before the block of
units of record j in the parser output. -/
theorem page_units_in_order (ctx : ParserCtx) (prs : List PrNode)
    (i j : Nat) (hij : i < j) (hj : j < prs.length)
    (hkeep : ∀ m (hm : m ≤ j),
      keepRecord ctx (prs.get ⟨m, Nat.lt_of_le_of_lt hm hj⟩) = true) :
    ∃ pre mid post,
      (parsePage ctx prs).1
        = pre ++ prUnits ctx (prs.get ⟨i, Nat.lt_trans hij hj⟩) ++ mid
          ++ prUnits ctx (prs.get ⟨j, hj⟩) ++ post :=
  parseAux_split2 ctx prs i j hij hj hkeep

/-- The parser context of the order and pending-review checks: no cutoff,
no label regexes. -/
def noCutoffCtx : ParserCtx :=
  { connectionId := 1, githubId := 1, createdDateAfter := none,
    labelTypeRegex := none, labelComponentRegex := none }

/-- C6 witness: on a two-record page without cutoff, the units of the first
record stand before the units of the second. -/
theorem page_units_in_order_witness :
    ((0 : Nat) < 1 ∧ 1 < ([mkPr 5, mkPr 4] : List PrNode).length
      ∧ ∀ m (hm : m ≤ 1),
          keepRecord noCutoffCtx
            (([mkPr 5, mkPr 4] : List PrNode).get
              ⟨m, Nat.lt_of_le_of_lt hm (by decide)⟩) = true)
    ∧ ∃ pre mid post,
        (parsePage noCutoffCtx [mkPr 5, mkPr 4]).1
          = pre ++ prUnits noCutoffCtx
                (([mkPr 5, mkPr 4] : List PrNode).get ⟨0, by decide⟩) ++ mid
            ++ prUnits noCutoffCtx
                (([mkPr 5, mkPr 4] : List PrNode).get ⟨1, by decide⟩) ++ post :=
  ⟨⟨by decide, by decide, fun m hm => by
      interval_cases m <;> rfl⟩,
   page_units_in_order noCutoffCtx [mkPr 5, mkPr 4] 0 1
     (by decide) (by decide) (fun m hm => by interval_cases m <;> rfl)⟩

/-- The review record a staged unit carries, when it is one. -/
def reviewDataOf : Entry → Option GithubPrReview
  | .prReview r => some r
  | _ => none

/-- The reviewer record a staged unit carries, when it is one. -/
def reviewerDataOf : Entry → Option GithubReviewer
  | .reviewer r => some r
  | _ => none

theorem filterMap_reviewData_commits (ctx : ParserCtx) (prId : Int)
    (cs : List CommitNode) :
    (listJoinMap (commitUnits ctx prId) cs).filterMap reviewDataOf = [] := by
  induction cs with
  | nil => simp [listJoinMap]
  | cons c rest ih =>
    rcases c with ⟨_, _, _, _, _, au, _, _, _, _⟩
    cases au <;>
      simp_all [listJoinMap, commitUnits, List.filterMap_append, reviewDataOf]

theorem filterMap_reviewerData_commits (ctx : ParserCtx) (prId : Int)
    (cs : List CommitNode) :
    (listJoinMap (commitUnits ctx prId) cs).filterMap reviewerDataOf = [] := by
  induction cs with
  | nil => simp [listJoinMap]
  | cons c rest ih =>
    rcases c with ⟨_, _, _, _, _, au, _, _, _, _⟩
    cases au <;>
      simp_all [listJoinMap, commitUnits, List.filterMap_append, reviewerDataOf]

theorem filterMap_reviewData_reviews (ctx : ParserCtx) (prId : Int)
    (rs : List ReviewNode) :
    (listJoinMap (reviewUnits ctx prId) rs).filterMap reviewDataOf
      = (rs.filter fun r => decide ¬r.state = "PENDING").map
          (mkGithubPrReview ctx prId) := by
  induction rs with
  | nil => simp [listJoinMap]
  | cons r rest ih =>
    by_cases hs : r.state = "PENDING"
    · simp [listJoinMap, reviewUnits, hs, List.filterMap_append, ih,
            List.filter_cons]
    · rcases hr : r.author with _ | a <;>
        simp [listJoinMap, reviewUnits, hs, hr, List.filterMap_append, ih,
              List.filter_cons, reviewDataOf]

theorem filterMap_reviewerData_reviews (ctx : ParserCtx) (prId : Int)
    (rs : List ReviewNode) :
    (listJoinMap (reviewUnits ctx prId) rs).filterMap reviewerDataOf
      = (rs.filter fun r => decide ¬r.state = "PENDING").map
          (mkGithubReviewer ctx prId) := by
  induction rs with
  | nil => simp [listJoinMap]
  | cons r rest ih =>
    by_cases hs : r.state = "PENDING"
    · simp [listJoinMap, reviewUnits, hs, List.filterMap_append, ih,
            List.filter_cons]
    · rcases hr : r.author with _ | a <;>
        simp [listJoinMap, reviewUnits, hs, hr, List.filterMap_append, ih,
              List.filter_cons, reviewerDataOf]

/-- C10: a PENDING review yields no staged unit at all, and the review and
reviewer records among the units of one pull request are exactly those of
its non-PENDING reviews, in page order. -/
theorem pending_reviews_skipped (ctx : ParserCtx) (pr : PrNode) :
    (prUnits ctx pr).filterMap reviewDataOf
      = (pr.reviews.filter fun r => decide ¬r.state = "PENDING").map
          (mkGithubPrReview ctx pr.databaseId)
    ∧ (prUnits ctx pr).filterMap reviewerDataOf
      = (pr.reviews.filter fun r => decide ¬r.state = "PENDING").map
          (mkGithubReviewer ctx pr.databaseId)
    ∧ ∀ r : ReviewNode, r.state = "PENDING" →
        reviewUnits ctx pr.databaseId r = [] := by
  refine ⟨?_, ?_, ?_⟩
  · rcases ha : pr.author with _ | a <;>
      simp [prUnits, ha, List.filterMap_append, List.filterMap_map,
            reviewDataOf, filterMap_reviewData_commits,
            filterMap_reviewData_reviews, convertGithubPullRequest]
  · rcases ha : pr.author with _ | a <;>
      simp [prUnits, ha, List.filterMap_append, List.filterMap_map,
            reviewerDataOf, filterMap_reviewerData_commits,
            filterMap_reviewerData_reviews, convertGithubPullRequest]
  · intro r hs
    simp [reviewUnits, hs]

end DevLake
